import Mathlib

/-!
Verification of the VisionAI-ClipsMaster numeric-kernel core.

Shallow embedding conventions:
* Caller-owned buffers (`float*` / `int*`) are modelled as total functions
  `Nat → ℚ` (respectively `Nat → ℤ` for the bitwise kernels): index `j`
  holds the value of the buffer cell `buf[j]`.  Distinct pointer arguments
  are modelled as distinct functions (the kernels' contract assumes
  non-aliasing buffers).
* IEEE-754 `float` arithmetic is embedded as exact rational arithmetic:
  every per-element operation (`*`, `+`, fused multiply-add) is mapped to
  the corresponding exact operation on `ℚ`.  The reassociation performed by
  the vectorized reductions is therefore proved to be *exactly*
  result-preserving, which implies the spec's tolerance bounds.
* A C `for` loop writing through a pointer is embedded as a left fold over
  the exact list of loop states, updating the memory function.
* Machine `int` loop arithmetic: the guard `i <= size - w` of the
  vectorized loops is int arithmetic (no wrap-around for `size >= 0`), so
  it is embedded as `i + w ≤ size`, and the loop body runs exactly
  `size / w` times.
-/

/-- A caller-owned buffer: cell `j` holds `m j`. -/
abbrev Mem := Nat → ℚ

/-- A single store `buf[i] = v` through a buffer. -/
def upd {α : Type} (m : Nat → α) (i : Nat) (v : α) : Nat → α :=
  fun j => if j = i then v else m j

/-- A loop that, for each loop state `x` in `l` (in order), stores the value
`f x` at cell `key x`.  Every store loop of the kernels is an instance. -/
def writeSeq {α β : Type} (f : β → α) (key : β → Nat) (l : List β) (m : Nat → α) : Nat → α :=
  l.foldl (fun m x => upd m (key x) (f x)) m

/-- The cells written by the vectorized main loop
`for (i = 0; i <= size - w; i += w)` (int guard, i.e. `i + w ≤ size`):
`size / w` full chunks, chunk `t` covering cells `w*t, …, w*t + w - 1`. -/
def chunkIdxs (w n : Nat) : List Nat :=
  (List.range (n / w)).flatMap (fun t => (List.range w).map (fun l => w * t + l))

/-- The cells visited by the scalar remainder loop `for (; i < size; i++)`
that follows a vectorized main loop of width `w`. -/
def remIdxs (w n : Nat) : List Nat :=
  List.range' (w * (n / w)) (n - w * (n / w))

/-- The cells written by the `simd_kernels.cpp` loops
`for (i = 0; i < n; i += w)` where each iteration loads/stores a full
`w`-wide vector at `&buf[i]`: `⌈n/w⌉` chunks, with **no** remainder pass. -/
def ceilChunkIdxs (w n : Nat) : List Nat :=
  (List.range ((n + (w - 1)) / w)).flatMap (fun t => (List.range w).map (fun l => w * t + l))

theorem upd_same {α : Type} (m : Nat → α) (i : Nat) (v : α) : upd m i v i = v := by
  simp [upd]

theorem upd_other {α : Type} (m : Nat → α) {i j : Nat} (v : α) (h : j ≠ i) :
    upd m i v j = m j := by
  simp [upd, h]

theorem writeSeq_cons {α β : Type} (f : β → α) (key : β → Nat) (a : β) (tl : List β)
    (m : Nat → α) :
    writeSeq f key (a :: tl) m = writeSeq f key tl (upd m (key a) (f a)) := rfl

theorem writeSeq_miss {α β : Type} (f : β → α) (key : β → Nat) (l : List β)
    (m : Nat → α) (p : Nat) (h : ∀ x ∈ l, key x ≠ p) :
    writeSeq f key l m p = m p := by
  induction l generalizing m with
  | nil => rfl
  | cons a tl ih =>
    have ha : key a ≠ p := h a (List.mem_cons_self a tl)
    have htl : ∀ x ∈ tl, key x ≠ p := fun x hx => h x (List.mem_cons_of_mem a hx)
    rw [writeSeq_cons, ih _ htl, upd_other _ _ (fun hc => ha hc.symm)]

theorem writeSeq_hit {α β : Type} (f : β → α) (key : β → Nat) (l : List β)
    (m : Nat → α) {x : β} (hx : x ∈ l)
    (hcoh : ∀ y ∈ l, key y = key x → f y = f x) :
    writeSeq f key l m (key x) = f x := by
  revert hx hcoh
  induction l generalizing m x with
  | nil => intro hx _; cases hx
  | cons a tl ih =>
    intro hx hcoh
    rw [writeSeq_cons]
    by_cases hex : ∃ y ∈ tl, key y = key x
    · obtain ⟨y, hy, hk⟩ := hex
      have hcoh' : ∀ z ∈ tl, key z = key y → f z = f y := by
        intro z hz hzk
        have h1 := hcoh z (List.mem_cons_of_mem a hz) (hzk.trans hk)
        have h2 := hcoh y (List.mem_cons_of_mem a hy) hk
        rw [h1, h2]
      have hthis := ih (upd m (key a) (f a)) (x := y) hy hcoh'
      rw [hk] at hthis
      rw [hthis]
      exact hcoh y (List.mem_cons_of_mem a hy) hk
    · have hxa : x = a := by
        rcases List.mem_cons.1 hx with h | h
        · exact h
        · exact absurd ⟨x, h, rfl⟩ hex
      have hmiss : ∀ y ∈ tl, key y ≠ key x := by
        intro y hy hk
        exact hex ⟨y, hy, hk⟩
      rw [writeSeq_miss _ _ _ _ _ hmiss, hxa, upd_same]

theorem writeSeq_congr {α β : Type} (f g : β → α) (key : β → Nat) (l : List β)
    (m : Nat → α) (h : ∀ x ∈ l, f x = g x) :
    writeSeq f key l m = writeSeq g key l m := by
  induction l generalizing m with
  | nil => rfl
  | cons a tl ih =>
    rw [writeSeq_cons, writeSeq_cons, h a (List.mem_cons_self a tl),
      ih _ (fun x hx => h x (List.mem_cons_of_mem a hx))]

theorem mem_chunkIdxs {w n j : Nat} (hw : 0 < w) :
    j ∈ chunkIdxs w n ↔ j < w * (n / w) := by
  simp only [chunkIdxs, List.mem_flatMap, List.mem_range, List.mem_map]
  constructor
  · rintro ⟨t, ht, l, hl, rfl⟩
    calc w * t + l < w * t + w := by omega
    _ = w * (t + 1) := by ring
    _ ≤ w * (n / w) := Nat.mul_le_mul_left w ht
  · intro hj
    refine ⟨j / w, ?_, j % w, Nat.mod_lt _ hw, ?_⟩
    · exact (Nat.div_lt_iff_lt_mul hw).2 (by rw [Nat.mul_comm] at hj; exact hj)
    · exact (Nat.div_add_mod j w).symm ▸ rfl

theorem mem_remIdxs {w n j : Nat} :
    j ∈ remIdxs w n ↔ w * (n / w) ≤ j ∧ j < n := by
  simp only [remIdxs, List.mem_range'_1]
  have := Nat.mul_div_le n w
  omega

theorem mem_chunk_rem {w n j : Nat} (hw : 0 < w) :
    j ∈ chunkIdxs w n ++ remIdxs w n ↔ j < n := by
  rw [List.mem_append, mem_chunkIdxs hw, mem_remIdxs]
  have := Nat.mul_div_le n w
  omega

theorem mem_ceilChunkIdxs {w n j : Nat} (hw : 0 < w) :
    j ∈ ceilChunkIdxs w n ↔ j < w * ((n + (w - 1)) / w) := by
  simp only [ceilChunkIdxs, List.mem_flatMap, List.mem_range, List.mem_map]
  constructor
  · rintro ⟨t, ht, l, hl, rfl⟩
    calc w * t + l < w * t + w := by omega
    _ = w * (t + 1) := by ring
    _ ≤ w * ((n + (w - 1)) / w) := Nat.mul_le_mul_left w ht
  · intro hj
    refine ⟨j / w, ?_, j % w, Nat.mod_lt _ hw, ?_⟩
    · exact (Nat.div_lt_iff_lt_mul hw).2 (by rw [Nat.mul_comm] at hj; exact hj)
    · exact (Nat.div_add_mod j w).symm ▸ rfl

/-- Every count `n` is covered by the `⌈n/w⌉` ceiling chunks. -/
theorem lt_ceil_chunks {w n j : Nat} (hw : 0 < w) (h : j < n) :
    j < w * ((n + (w - 1)) / w) := by
  have h1 : n ≤ w * ((n + (w - 1)) / w) := by
    have hdm := Nat.div_add_mod (n + (w - 1)) w
    have hm : (n + (w - 1)) % w < w := Nat.mod_lt _ hw
    omega
  omega

/-- A scalar accumulation loop `for (k in l) s += g k;` starting from `s0`. -/
def accSumFrom (s0 : ℚ) (g : Nat → ℚ) (l : List Nat) : ℚ :=
  l.foldl (fun s k => s + g k) s0

theorem accSumFrom_eq (s0 : ℚ) (g : Nat → ℚ) (l : List Nat) :
    accSumFrom s0 g l = s0 + (l.map g).sum := by
  induction l generalizing s0 with
  | nil => simp [accSumFrom]
  | cons a tl ih =>
    show accSumFrom (s0 + g a) g tl = _
    rw [ih]
    simp
    ring

theorem sum_map_range (g : Nat → ℚ) (n : Nat) :
    ((List.range n).map g).sum = ∑ i ∈ Finset.range n, g i := by
  induction n with
  | zero => simp
  | succ n ih => rw [List.range_succ, Finset.sum_range_succ, List.map_append, List.sum_append, ih]; simp

theorem sum_map_range' (g : Nat → ℚ) (s len : Nat) :
    ((List.range' s len).map g).sum = ∑ i ∈ Finset.Ico s (s + len), g i := by
  induction len generalizing s with
  | zero => simp
  | succ len ih =>
    rw [List.range'_succ, List.map_cons, List.sum_cons, ih]
    have hb : Finset.sum (Finset.Ico s (s + (len + 1))) g
        = g s + ∑ i ∈ Finset.Ico (s + 1) (s + (len + 1)), g i :=
      Finset.sum_eq_sum_Ico_succ_bot (by omega) g
    rw [hb]
    have harg : s + 1 + len = s + (len + 1) := by omega
    rw [harg]

/-- Splitting a sum over `[0, n)` at the end of the last full `w`-chunk. -/
theorem sum_range_chunk_split (g : Nat → ℚ) (w n : Nat) (hw : 0 < w) :
    (∑ i ∈ Finset.range n, g i) =
      (∑ i ∈ Finset.range (w * (n / w)), g i) +
        ∑ i ∈ Finset.Ico (w * (n / w)) n, g i := by
  have h1 : w * (n / w) ≤ n := Nat.mul_div_le n w
  rw [Finset.range_eq_Ico]
  exact (Finset.sum_Ico_consecutive g (Nat.zero_le _) h1).symm

/-- A `w`-lane vector accumulator over `chunks` full chunks: lane `l` of the
fold equals the sum of the lane-`l` terms of each chunk. -/
def laneAcc (w : Nat) (g : Nat → ℚ) (chunks : Nat) : Nat → ℚ :=
  (List.range chunks).foldl (fun acc t => fun l => acc l + g (w * t + l)) (fun _ => 0)

/-- The horizontal reduction of a `w`-lane vector accumulator (the
shuffle/extract sequences of the source compute exactly the sum of lanes). -/
def hAdd (w : Nat) (lanes : Nat → ℚ) : ℚ :=
  ((List.range w).map lanes).sum

theorem laneAcc_eval (w : Nat) (g : Nat → ℚ) (chunks : Nat) (l : Nat) :
    laneAcc w g chunks l = ∑ t ∈ Finset.range chunks, g (w * t + l) := by
  induction chunks with
  | zero => simp [laneAcc]
  | succ c ih =>
    unfold laneAcc at *
    rw [List.range_succ, List.foldl_append, Finset.sum_range_succ, ← ih]
    simp

theorem sum_chunks_full (w : Nat) (g : Nat → ℚ) (c : Nat) :
    (∑ t ∈ Finset.range c, ∑ l ∈ Finset.range w, g (w * t + l)) =
      ∑ i ∈ Finset.range (w * c), g i := by
  induction c with
  | zero => simp
  | succ c ih =>
    rw [Finset.sum_range_succ, ih, Nat.mul_succ]
    have hinner : (∑ l ∈ Finset.range w, g (w * c + l)) =
        ∑ i ∈ Finset.Ico (w * c) (w * c + w), g i := by
      rw [Finset.sum_Ico_eq_sum_range]
      simp
    rw [hinner, Finset.range_eq_Ico]
    exact Finset.sum_Ico_consecutive g (Nat.zero_le _) (Nat.le_add_right _ _)

/-- Lane-wise accumulation over `chunks` full `w`-chunks followed by a
horizontal add yields the plain sum of the first `w * chunks` terms. -/
theorem hAdd_laneAcc (w : Nat) (g : Nat → ℚ) (chunks : Nat) :
    hAdd w (laneAcc w g chunks) = ∑ i ∈ Finset.range (w * chunks), g i := by
  unfold hAdd
  rw [sum_map_range]
  have hswap : (∑ l ∈ Finset.range w, laneAcc w g chunks l) =
      ∑ t ∈ Finset.range chunks, ∑ l ∈ Finset.range w, g (w * t + l) := by
    rw [Finset.sum_congr rfl (fun l _ => laneAcc_eval w g chunks l)]
    exact Finset.sum_comm
  rw [hswap]
  exact sum_chunks_full w g chunks

/-- The full tier-style dot reduction — `n / w` lane-accumulated chunks,
horizontal add into `result` (initially `0.0f`), then the scalar remainder
loop — equals the plain left-to-right scalar accumulation. -/
theorem dot_chunks_eq (w : Nat) (hw : 0 < w) (g : Nat → ℚ) (n : Nat) :
    accSumFrom (0 + hAdd w (laneAcc w g (n / w))) g (remIdxs w n) =
      accSumFrom 0 g (List.range n) := by
  rw [accSumFrom_eq, accSumFrom_eq, remIdxs, sum_map_range', sum_map_range,
    hAdd_laneAcc, sum_range_chunk_split g w n hw]
  have h1 : w * (n / w) ≤ n := Nat.mul_div_le n w
  have harg : w * (n / w) + (n - w * (n / w)) = n := by omega
  rw [harg, Finset.range_eq_Ico]
  ring

/-!
## Kernel variants from `src/hardware/simd_kernels.cpp`

Each vectorized function there iterates `for (i = 0; i < n; i += w)` and
loads/stores a full `w`-wide vector at `&buf[i]` on every iteration — there
is **no** scalar remainder pass, so the touched cells are exactly
`ceilChunkIdxs w n`.  The per-element value written at cell `j` is the exact
image of the intrinsic arithmetic.
-/

/-- `matrix_mult_avx512`: elementwise product, 16-wide chunks, no remainder pass. -/
def matrix_mult_avx512 (a b : Mem) (c : Mem) (n : Nat) : Mem :=
  writeSeq (fun j => a j * b j) id (ceilChunkIdxs 16 n) c

/-- `matrix_add_avx512`: elementwise sum, 16-wide chunks, no remainder pass. -/
def matrix_add_avx512 (a b : Mem) (c : Mem) (n : Nat) : Mem :=
  writeSeq (fun j => a j + b j) id (ceilChunkIdxs 16 n) c

/-- `vector_scale_avx512`: in-place scaling, 16-wide chunks, no remainder pass.
Within a chunk all loads happen before the store, so each cell is read before
any cell of the chunk is overwritten. -/
def vector_scale_avx512 (vec : Mem) (scalar : ℚ) (n : Nat) : Mem :=
  writeSeq (fun j => vec j * scalar) id (ceilChunkIdxs 16 n) vec

/-- `fma_avx512`: fused `a*b+c` (exact in the embedding), 16-wide chunks. -/
def fma_avx512 (a b c : Mem) (result : Mem) (n : Nat) : Mem :=
  writeSeq (fun j => a j * b j + c j) id (ceilChunkIdxs 16 n) result

/-- `matrix_mult_avx2`: elementwise product, 8-wide chunks, no remainder pass. -/
def matrix_mult_avx2 (a b : Mem) (c : Mem) (n : Nat) : Mem :=
  writeSeq (fun j => a j * b j) id (ceilChunkIdxs 8 n) c

/-- `matrix_add_avx2`: elementwise sum, 8-wide chunks, no remainder pass. -/
def matrix_add_avx2 (a b : Mem) (c : Mem) (n : Nat) : Mem :=
  writeSeq (fun j => a j + b j) id (ceilChunkIdxs 8 n) c

/-- `vector_scale_avx2`: in-place scaling, 8-wide chunks, no remainder pass. -/
def vector_scale_avx2 (vec : Mem) (scalar : ℚ) (n : Nat) : Mem :=
  writeSeq (fun j => vec j * scalar) id (ceilChunkIdxs 8 n) vec

/-- `fma_avx2`: `a*b+c` per element (both the `__FMA__` fused form and the
two-step fallback denote the same exact value in the embedding), 8-wide. -/
def fma_avx2 (a b c : Mem) (result : Mem) (n : Nat) : Mem :=
  writeSeq (fun j => a j * b j + c j) id (ceilChunkIdxs 8 n) result

/-- `matrix_mult_avx` (AVX without FMA): 8-wide chunks, no remainder pass. -/
def matrix_mult_avx (a b : Mem) (c : Mem) (n : Nat) : Mem :=
  writeSeq (fun j => a j * b j) id (ceilChunkIdxs 8 n) c

/-- `matrix_add_avx`: elementwise sum, 8-wide chunks, no remainder pass. -/
def matrix_add_avx (a b : Mem) (c : Mem) (n : Nat) : Mem :=
  writeSeq (fun j => a j + b j) id (ceilChunkIdxs 8 n) c

/-- `vector_scale_avx`: in-place scaling, 8-wide chunks, no remainder pass. -/
def vector_scale_avx (vec : Mem) (scalar : ℚ) (n : Nat) : Mem :=
  writeSeq (fun j => vec j * scalar) id (ceilChunkIdxs 8 n) vec

/-- `matrix_mult_sse42`: elementwise product, 4-wide chunks, no remainder pass. -/
def matrix_mult_sse42 (a b : Mem) (c : Mem) (n : Nat) : Mem :=
  writeSeq (fun j => a j * b j) id (ceilChunkIdxs 4 n) c

/-- `matrix_add_sse42`: elementwise sum, 4-wide chunks, no remainder pass. -/
def matrix_add_sse42 (a b : Mem) (c : Mem) (n : Nat) : Mem :=
  writeSeq (fun j => a j + b j) id (ceilChunkIdxs 4 n) c

/-- `vector_scale_sse42`: in-place scaling, 4-wide chunks, no remainder pass. -/
def vector_scale_sse42 (vec : Mem) (scalar : ℚ) (n : Nat) : Mem :=
  writeSeq (fun j => vec j * scalar) id (ceilChunkIdxs 4 n) vec

/-- `matrix_mult_neon`: elementwise product, 4-wide chunks, no remainder pass. -/
def matrix_mult_neon (a b : Mem) (c : Mem) (n : Nat) : Mem :=
  writeSeq (fun j => a j * b j) id (ceilChunkIdxs 4 n) c

/-- `matrix_add_neon`: elementwise sum, 4-wide chunks, no remainder pass. -/
def matrix_add_neon (a b : Mem) (c : Mem) (n : Nat) : Mem :=
  writeSeq (fun j => a j + b j) id (ceilChunkIdxs 4 n) c

/-- `vector_scale_neon`: in-place scaling, 4-wide chunks, no remainder pass. -/
def vector_scale_neon (vec : Mem) (scalar : ℚ) (n : Nat) : Mem :=
  writeSeq (fun j => vec j * scalar) id (ceilChunkIdxs 4 n) vec

/-- `fma_neon` (`vmlaq_f32`, i.e. `c + a*b`): 4-wide chunks, no remainder pass. -/
def fma_neon (a b c : Mem) (result : Mem) (n : Nat) : Mem :=
  writeSeq (fun j => c j + a j * b j) id (ceilChunkIdxs 4 n) result

/-- `matrix_mult_baseline`: plain scalar loop over `0 … n-1`. -/
def matrix_mult_baseline (a b : Mem) (c : Mem) (n : Nat) : Mem :=
  writeSeq (fun j => a j * b j) id (List.range n) c

/-- `matrix_add_baseline`: plain scalar loop over `0 … n-1`. -/
def matrix_add_baseline (a b : Mem) (c : Mem) (n : Nat) : Mem :=
  writeSeq (fun j => a j + b j) id (List.range n) c

/-- `vector_scale_baseline`: in-place `vec[i] *= scalar` over `0 … n-1`. -/
def vector_scale_baseline (vec : Mem) (scalar : ℚ) (n : Nat) : Mem :=
  writeSeq (fun j => vec j * scalar) id (List.range n) vec

/-- `fma_baseline`: `result[i] = a[i]*b[i] + c[i]` over `0 … n-1`. -/
def fma_baseline (a b c : Mem) (result : Mem) (n : Nat) : Mem :=
  writeSeq (fun j => a j * b j + c j) id (List.range n) result

/-!
## Kernel variants from `src/hardware/assembly_kernels.cpp`

Each operation there is one C function whose body is selected by
platform/ISA preprocessor branches; every branch is embedded as its own
definition, suffixed with the branch name.  The vectorized branches iterate
`for (i = 0; i <= size - w; i += w)` (int guard, `⌊size/w⌋` full chunks) and
then run the scalar remainder loop `for (; i < size; i++)`, so the touched
cells are exactly `chunkIdxs w size ++ remIdxs w size`.
-/

/-- `asm_matrix_add`, AVX2 branch: 8-wide chunks plus scalar remainder. -/
def asm_matrix_add_avx2 (A B : Mem) (C : Mem) (size : Nat) : Mem :=
  writeSeq (fun j => A j + B j) id (chunkIdxs 8 size ++ remIdxs 8 size) C

/-- `asm_matrix_add`, SSE4.2 branch: 4-wide chunks plus scalar remainder. -/
def asm_matrix_add_sse42 (A B : Mem) (C : Mem) (size : Nat) : Mem :=
  writeSeq (fun j => A j + B j) id (chunkIdxs 4 size ++ remIdxs 4 size) C

/-- `asm_matrix_add`, ARM NEON branch: 4-wide chunks plus scalar remainder. -/
def asm_matrix_add_neon (A B : Mem) (C : Mem) (size : Nat) : Mem :=
  writeSeq (fun j => A j + B j) id (chunkIdxs 4 size ++ remIdxs 4 size) C

/-- `asm_matrix_add`, scalar fallback branch: plain loop over `0 … size-1`. -/
def asm_matrix_add_base (A B : Mem) (C : Mem) (size : Nat) : Mem :=
  writeSeq (fun j => A j + B j) id (List.range size) C

/-- Modelled from the spec: the macOS branch of `asm_matrix_add` delegates to
the external Accelerate routine `vDSP_vadd`, whose code is not in the
repository; per the spec it computes `C[i] = A[i] + B[i]` for `i < size`. -/
def asm_matrix_add_apple (A B : Mem) (C : Mem) (size : Nat) : Mem :=
  writeSeq (fun j => A j + B j) id (List.range size) C

/-- `asm_vector_scale`, AVX2 branch: 8-wide chunks plus scalar remainder. -/
def asm_vector_scale_avx2 (A : Mem) (B : Mem) (scalar : ℚ) (size : Nat) : Mem :=
  writeSeq (fun j => A j * scalar) id (chunkIdxs 8 size ++ remIdxs 8 size) B

/-- `asm_vector_scale`, SSE4.2 branch: 4-wide chunks plus scalar remainder. -/
def asm_vector_scale_sse42 (A : Mem) (B : Mem) (scalar : ℚ) (size : Nat) : Mem :=
  writeSeq (fun j => A j * scalar) id (chunkIdxs 4 size ++ remIdxs 4 size) B

/-- `asm_vector_scale`, ARM NEON branch: 4-wide chunks plus scalar remainder. -/
def asm_vector_scale_neon (A : Mem) (B : Mem) (scalar : ℚ) (size : Nat) : Mem :=
  writeSeq (fun j => A j * scalar) id (chunkIdxs 4 size ++ remIdxs 4 size) B

/-- `asm_vector_scale`, scalar fallback branch. -/
def asm_vector_scale_base (A : Mem) (B : Mem) (scalar : ℚ) (size : Nat) : Mem :=
  writeSeq (fun j => A j * scalar) id (List.range size) B

/-- Modelled from the spec: the macOS branch of `asm_vector_scale` delegates
to the external Accelerate routine `vDSP_vsmul`; per the spec it computes
`B[i] = A[i] * scalar` for `i < size`. -/
def asm_vector_scale_apple (A : Mem) (B : Mem) (scalar : ℚ) (size : Nat) : Mem :=
  writeSeq (fun j => A j * scalar) id (List.range size) B

/-- `asm_vector_dot`, AVX2 branch: 8-lane accumulator over the full chunks,
horizontal add into `result` (declared `0.0f`), then scalar remainder. -/
def asm_vector_dot_avx2 (A B : Mem) (size : Nat) : ℚ :=
  accSumFrom (0 + hAdd 8 (laneAcc 8 (fun j => A j * B j) (size / 8)))
    (fun j => A j * B j) (remIdxs 8 size)

/-- `asm_vector_dot`, SSE4.2 branch: 4-lane accumulator, horizontal add,
scalar remainder. -/
def asm_vector_dot_sse42 (A B : Mem) (size : Nat) : ℚ :=
  accSumFrom (0 + hAdd 4 (laneAcc 4 (fun j => A j * B j) (size / 4)))
    (fun j => A j * B j) (remIdxs 4 size)

/-- `asm_vector_dot`, ARM NEON branch (`vmlaq_f32` accumulation, pairwise
horizontal add), then scalar remainder. -/
def asm_vector_dot_neon (A B : Mem) (size : Nat) : ℚ :=
  accSumFrom (0 + hAdd 4 (laneAcc 4 (fun j => A j * B j) (size / 4)))
    (fun j => A j * B j) (remIdxs 4 size)

/-- `asm_vector_dot`, ARM-without-NEON branch: plain scalar accumulation. -/
def asm_vector_dot_arm_base (A B : Mem) (size : Nat) : ℚ :=
  accSumFrom 0 (fun j => A j * B j) (List.range size)

/-- `asm_vector_dot`, generic scalar fallback branch. -/
def asm_vector_dot_base (A B : Mem) (size : Nat) : ℚ :=
  accSumFrom 0 (fun j => A j * B j) (List.range size)

/-- Modelled from the spec: the macOS branch of `asm_vector_dot` delegates to
the external Accelerate routine `vDSP_dotpr`, whose code is not in the
repository; per the spec (§4.3) it computes the sum of elementwise products
over `0 … size-1`. -/
def vDSP_dotpr (A B : Mem) (size : Nat) : ℚ :=
  accSumFrom 0 (fun j => A j * B j) (List.range size)

/-- `asm_vector_dot`, macOS branch: `result` is overwritten by
`vDSP_dotpr(A, 1, B, 1, &result, size)`. -/
def asm_vector_dot_apple (A B : Mem) (size : Nat) : ℚ :=
  vDSP_dotpr A B size

/-- An integer buffer (C `int*`), for the bitwise kernels. -/
abbrev IMem := Nat → ℤ

/-- `asm_vector_bitwise_or`, AVX2 branch: 8-wide chunks plus remainder. -/
def asm_vector_bitwise_or_avx2 (A B : IMem) (C : IMem) (size : Nat) : IMem :=
  writeSeq (fun j => Int.lor (A j) (B j)) id (chunkIdxs 8 size ++ remIdxs 8 size) C

/-- `asm_vector_bitwise_or`, SSE4.2 branch: 4-wide chunks plus remainder. -/
def asm_vector_bitwise_or_sse42 (A B : IMem) (C : IMem) (size : Nat) : IMem :=
  writeSeq (fun j => Int.lor (A j) (B j)) id (chunkIdxs 4 size ++ remIdxs 4 size) C

/-- `asm_vector_bitwise_or`, ARM NEON branch: 4-wide chunks plus remainder. -/
def asm_vector_bitwise_or_neon (A B : IMem) (C : IMem) (size : Nat) : IMem :=
  writeSeq (fun j => Int.lor (A j) (B j)) id (chunkIdxs 4 size ++ remIdxs 4 size) C

/-- `asm_vector_bitwise_or`, scalar fallback branch. -/
def asm_vector_bitwise_or_base (A B : IMem) (C : IMem) (size : Nat) : IMem :=
  writeSeq (fun j => Int.lor (A j) (B j)) id (List.range size) C

/-- `asm_vector_bitwise_and`, AVX2 branch: 8-wide chunks plus remainder. -/
def asm_vector_bitwise_and_avx2 (A B : IMem) (C : IMem) (size : Nat) : IMem :=
  writeSeq (fun j => Int.land (A j) (B j)) id (chunkIdxs 8 size ++ remIdxs 8 size) C

/-- `asm_vector_bitwise_and`, SSE4.2 branch: 4-wide chunks plus remainder. -/
def asm_vector_bitwise_and_sse42 (A B : IMem) (C : IMem) (size : Nat) : IMem :=
  writeSeq (fun j => Int.land (A j) (B j)) id (chunkIdxs 4 size ++ remIdxs 4 size) C

/-- `asm_vector_bitwise_and`, ARM NEON branch: 4-wide chunks plus remainder. -/
def asm_vector_bitwise_and_neon (A B : IMem) (C : IMem) (size : Nat) : IMem :=
  writeSeq (fun j => Int.land (A j) (B j)) id (chunkIdxs 4 size ++ remIdxs 4 size) C

/-- `asm_vector_bitwise_and`, scalar fallback branch. -/
def asm_vector_bitwise_and_base (A B : IMem) (C : IMem) (size : Nat) : IMem :=
  writeSeq (fun j => Int.land (A j) (B j)) id (List.range size) C

/-!
## 2-D matrix multiply (`simd_kernels.cpp` and `assembly_kernels.cpp`)

Dimensions follow the C signatures: `A` is `M×K` (row-major, cell
`i*K + k`), `B` is `K×N` (cell `k*N + j`), `C` is `M×N` (cell `i*N + j`);
`M = rows_a = M`, `K = cols_a = K`, `N = cols_b = N`.
-/

/-- The inner accumulation `sum = 0; for (k …) sum += A[i*K+k]*B[k*N+j];`. -/
def dotK (A B : Mem) (K N : Nat) (i j : Nat) : ℚ :=
  accSumFrom 0 (fun k => A (i * K + k) * B (k * N + j)) (List.range K)

/-- Row-major iteration order of the double loop over `(i, j)`. -/
def pairList (M N : Nat) : List (Nat × Nat) :=
  (List.range M).flatMap (fun i => (List.range N).map (fun j => (i, j)))

/-- `matrix_multiply` (`simd_kernels.cpp`): naive triple loop,
`C[i*N+j] = Σ_k A[i*K+k] * B[k*N+j]`. -/
def matrix_multiply (A B : Mem) (C : Mem) (M K N : Nat) : Mem :=
  writeSeq (fun ij => dotK A B K N ij.1 ij.2) (fun ij => ij.1 * N + ij.2)
    (pairList M N) C

/-- `asm_matrix_multiply`, Linux/x86-64, Windows/MSVC and generic fallback
branches: the same naive triple loop. -/
def asm_matrix_multiply_base (A B : Mem) (C : Mem) (M K N : Nat) : Mem :=
  writeSeq (fun ij => dotK A B K N ij.1 ij.2) (fun ij => ij.1 * N + ij.2)
    (pairList M N) C

/-- `asm_matrix_multiply`, ARM NEON branch: per output cell, a 4-lane
accumulated reduction over the full `k`-chunks (`vmlaq_f32`), a pairwise
horizontal add into `sum` (declared `0.0f`), then the scalar `k` remainder. -/
def asm_matrix_multiply_neon (A B : Mem) (C : Mem) (M K N : Nat) : Mem :=
  writeSeq
    (fun ij =>
      accSumFrom (0 + hAdd 4 (laneAcc 4 (fun k => A (ij.1 * K + k) * B (k * N + ij.2)) (K / 4)))
        (fun k => A (ij.1 * K + k) * B (k * N + ij.2)) (remIdxs 4 K))
    (fun ij => ij.1 * N + ij.2) (pairList M N) C

/-- Modelled from the spec: the macOS branch of `asm_matrix_multiply`
delegates to the external Accelerate routine `cblas_sgemm` with alpha 1 and
beta 0, whose code is not in the repository; per the spec it computes the
row-major matrix product `C[i,j] = Σ_k A[i,k]·B[k,j]`. -/
def asm_matrix_multiply_apple (A B : Mem) (C : Mem) (M K N : Nat) : Mem :=
  writeSeq (fun ij => dotK A B K N ij.1 ij.2) (fun ij => ij.1 * N + ij.2)
    (pairList M N) C

/-- Block-start positions of `for (i = 0; i < len; i += 32)`. -/
def blockStarts (len : Nat) : List Nat :=
  (List.range ((len + 31) / 32)).map (fun t => 32 * t)

/-- The boundary clipping `i_end = (i + 32 < len) ? i + 32 : len`. -/
def clip (s len : Nat) : Nat := min (s + 32) len

/-- The read-modify-write updates performed by one `(bi, bj, bk)` block of
`matrix_multiply_optimized`: for each `(ii, jj)` inside the clipped block,
the partial sum over the clipped `kk` range is added to cell `ii*N + jj`. -/
def blockEntries (A B : Mem) (M K N : Nat) (bi bj bk : Nat) : List (Nat × ℚ) :=
  (List.range' bi (clip bi M - bi)).flatMap (fun ii =>
    (List.range' bj (clip bj N - bj)).map (fun jj =>
      (ii * N + jj,
        accSumFrom 0 (fun kk => A (ii * K + kk) * B (kk * N + jj))
          (List.range' bk (clip bk K - bk)))))

/-- All block updates of `matrix_multiply_optimized`, in loop order. -/
def blockedUpdates (A B : Mem) (M K N : Nat) : List (Nat × ℚ) :=
  (blockStarts M).flatMap (fun bi =>
    (blockStarts N).flatMap (fun bj =>
      (blockStarts K).flatMap (fun bk => blockEntries A B M K N bi bj bk)))

/-- Sequential execution of read-modify-write updates
`sum = C[p]; sum += v; C[p] = sum;`. -/
def applyUpdates (C : Mem) (us : List (Nat × ℚ)) : Mem :=
  us.foldl (fun m u => upd m u.1 (m u.1 + u.2)) C

/-- The `memset(C, 0, rows_a * cols_b * sizeof(float))` zero-initialization. -/
def zeroFill (C : Mem) (len : Nat) : Mem :=
  fun j => if j < len then 0 else C j

/-- `matrix_multiply_optimized` (`simd_kernels.cpp`): zero the output, then
run the cache-blocked accumulation with 32-extent blocks clipped to the
matrix boundary.  The `simd_type` argument is never read by the body. -/
def matrix_multiply_optimized (A B : Mem) (C : Mem) (M K N : Nat)
    (simd_type : Option String) : Mem :=
  applyUpdates (zeroFill C (M * N)) (blockedUpdates A B M K N)

/-- Which SIMD tiers are compiled in (the build's preprocessor macros
`__AVX512F__`, `__AVX2__`, `__AVX__`, `__SSE4_2__`, `__ARM_NEON`). -/
structure BuildConfig where
  avx512f : Bool
  avx2 : Bool
  avx : Bool
  sse42 : Bool
  neon : Bool

/-- The tier tag `dispatch_matrix_multiply` passes on when no variant is
requested: the `#if defined(...)/#elif` chain in source order. -/
def selected_simd_type (cfg : BuildConfig) : Option String :=
  if cfg.avx512f then some "avx512"
  else if cfg.avx2 then some "avx2"
  else if cfg.avx then some "avx"
  else if cfg.sse42 then some "sse42"
  else if cfg.neon then some "neon"
  else none

/-- Spec-side definition (§4.2), following the spec's words: the *widest*
compiled-in tier in the fixed priority order
512-bit > 256-bit-with-FMA > 256-bit-without-FMA > 128-bit > ARM 128-bit,
with the scalar baseline (`none`) as terminal fallback. -/
def spec_widest_tier (cfg : BuildConfig) : Option String :=
  (([(cfg.avx512f, "avx512"), (cfg.avx2, "avx2"), (cfg.avx, "avx"),
      (cfg.sse42, "sse42"), (cfg.neon, "neon")].find? (fun p => p.1)).map
    (fun p => p.2))

/-- `dispatch_matrix_multiply`: an explicit `simd_type` is forwarded to the
blocked variant; otherwise the `#if` chain picks the widest compiled-in tier
and the scalar naive multiply is the terminal fallback. -/
def dispatch_matrix_multiply (cfg : BuildConfig) (A B : Mem) (C : Mem)
    (M K N : Nat) (simd_type : Option String) : Mem :=
  match simd_type with
  | some s => matrix_multiply_optimized A B C M K N (some s)
  | none =>
    match selected_simd_type cfg with
    | some s => matrix_multiply_optimized A B C M K N (some s)
    | none => matrix_multiply A B C M K N

/-!
## Capability detection (`src/hardware/pipeline_opt.c`)

The CPUID instruction is hardware input: a leaf query either fails
(`__get_cpuid` returns 0, modelled as `none`) or yields the four 32-bit
registers.  `leaf1` is the base query (`__get_cpuid(1, …)`), `leaf7` the
extended query (`__get_cpuid_count(7, 0, …)`).
-/

/-- The four registers returned by one CPUID leaf query. -/
structure CpuidRegs where
  eax : Nat
  ebx : Nat
  ecx : Nat
  edx : Nat

/-- `detect_cpu_features` (GCC/Clang path): returns 0 when the base query
fails; otherwise ORs together one fixed bit per tested position
(1, 2, 4, 8, 16, 32, 64 from `ecx`/`edx`, 128 from `ebx`).  The source
reuses one set of `eax/ebx/ecx/edx` variables for both queries: a
*successful* `__get_cpuid_count(7, 0, …)` overwrites all four with the
leaf-7 registers before the bit tests run, while a *failed* one leaves the
leaf-1 values in place and only `ebx` is explicitly zeroed.  So the
`ecx`/`edx` bit tests read leaf-7 registers whenever leaf 7 succeeds. -/
def detect_cpu_features (leaf1 leaf7 : Option CpuidRegs) : Nat :=
  match leaf1 with
  | none => 0
  | some r1 =>
    let ebx : Nat := match leaf7 with
      | none => 0
      | some r7 => r7.ebx
    let ecx : Nat := match leaf7 with
      | none => r1.ecx
      | some r7 => r7.ecx
    let edx : Nat := match leaf7 with
      | none => r1.edx
      | some r7 => r7.edx
    (if edx &&& (1 <<< 25) ≠ 0 then 1 else 0) |||
    (if edx &&& (1 <<< 26) ≠ 0 then 2 else 0) |||
    (if ecx &&& (1 <<< 0) ≠ 0 then 4 else 0) |||
    (if ecx &&& (1 <<< 9) ≠ 0 then 8 else 0) |||
    (if ecx &&& (1 <<< 19) ≠ 0 then 16 else 0) |||
    (if ecx &&& (1 <<< 20) ≠ 0 then 32 else 0) |||
    (if ecx &&& (1 <<< 28) ≠ 0 then 64 else 0) |||
    (if ebx &&& (1 <<< 5) ≠ 0 then 128 else 0)

/-- `detect_prefetch_support`: CLFLUSH bit (edx bit 9) of the base leaf;
0 (false) when the query fails. -/
def detect_prefetch_support (leaf1 : Option CpuidRegs) : Bool :=
  match leaf1 with
  | none => false
  | some r1 => r1.edx &&& (1 <<< 9) ≠ 0

/-- `get_cache_line_size`: `((ebx >> 8) & 0xff) * 8` from the base leaf,
with 64 as the default when the query fails or the field is zero. -/
def get_cache_line_size (leaf1 : Option CpuidRegs) : Nat :=
  match leaf1 with
  | none => 64
  | some r1 =>
    let clflush_line_size := ((r1.ebx >>> 8) &&& 0xff) * 8
    if clflush_line_size > 0 then clflush_line_size else 64

/-- `is_pipeline_opt_supported`: derives the optimization level from the
detected features and prefetch support (the cache-line size is also queried
but does not influence the level). -/
def is_pipeline_opt_supported (leaf1 leaf7 : Option CpuidRegs) : Nat :=
  let features := detect_cpu_features leaf1 leaf7
  let prefetch_support := detect_prefetch_support leaf1
  let _cache_line_size := get_cache_line_size leaf1
  if features &&& 128 ≠ 0 ∧ prefetch_support then 2
  else if features &&& 32 ≠ 0 ∧ prefetch_support then 1
  else 0

/-!
## `get_assembly_optimization_level` (`src/hardware/assembly_kernels.cpp`)

Its value depends on the compile-time platform/architecture macros and, on
x86 builds without compile-time vector macros, on the runtime CPUID test
(GCC style, embedded here).
-/

/-- The compile-time configuration visible to
`get_assembly_optimization_level`. -/
structure AsmBuildConfig where
  /-- `ARCH_X86_64` or `ARCH_X86`. -/
  x86 : Bool
  /-- `__AVX2__`. -/
  avx2 : Bool
  /-- `__AVX__`. -/
  avx : Bool
  /-- `__SSE4_2__`. -/
  sse42 : Bool
  /-- `ARCH_ARM64`. -/
  arm64 : Bool
  /-- `ARCH_ARM`. -/
  arm : Bool
  /-- `__ARM_NEON`. -/
  neon : Bool
  /-- `PLATFORM_MACOS`. -/
  macos : Bool

/-- `get_assembly_optimization_level` (GCC runtime-detection path on x86
without compile-time vector macros; `leaf1`/`leaf7` are the two inline
`cpuid` results, assumed available on x86).  The macOS override sets
level 2 last. -/
def get_assembly_optimization_level (cfg : AsmBuildConfig)
    (leaf1 leaf7 : CpuidRegs) : Nat :=
  let level : Nat :=
    if cfg.x86 then
      if cfg.avx2 then 2
      else if cfg.avx ∨ cfg.sse42 then 1
      else
        let l1 : Nat := if leaf1.ecx &&& (1 <<< 19) ≠ 0 then 1 else 0
        if leaf7.ebx &&& (1 <<< 5) ≠ 0 then 2 else l1
    else if cfg.arm64 then 2
    else if cfg.arm then
      if cfg.neon then 1 else 0
    else 0
  if cfg.macos then 2 else level

/-!
## Memory probe (`src/probes/memory_probes.c`)

The probe reads process state (`/proc`): the measured current and available
memory (MB), the wall-clock time and the value of the function-local static
`peak_memory` are inputs of the embedding; the probe's outputs are the
returned `exceeded` flag, the filled result structure (when a non-null
result pointer is passed) and the new value of the static.
-/

/-- The C `MemoryProbe` structure (name modelled as present/absent). -/
structure MemoryProbe where
  name_present : Bool
  threshold : Nat
  timestamp : Nat
  level : Nat

/-- The C `MemoryProbeResult` structure. -/
structure MemoryProbeResult where
  current_memory : Nat
  peak_memory : Nat
  available_memory : Nat
  timestamp : Nat
  threshold_exceeded : Nat
  error_code : Nat

/-- `mem_probe(probe, result)`: zero-fills and fills the result (when the
result pointer is non-null), updates the static peak, computes the
`exceeded` flag and sets `result->threshold_exceeded` when it fires.
Returns `(exceeded, filled result, new static peak)`. -/
def mem_probe (probe : Option MemoryProbe) (result_present : Bool)
    (mem_usage mem_available now peak0 : Nat) :
    Nat × Option MemoryProbeResult × Nat :=
  let peak1 := if result_present then max peak0 mem_usage else peak0
  let exceeded : Nat :=
    match probe with
    | none => 0
    | some p => if p.threshold > 0 ∧ mem_usage > p.threshold then 1 else 0
  let result : Option MemoryProbeResult :=
    if result_present then
      some { current_memory := mem_usage
             peak_memory := peak1
             available_memory := mem_available
             timestamp := now
             threshold_exceeded := exceeded
             error_code := 0 }
    else none
  (exceeded, result, peak1)

/-- `check_memory_usage(probe_name, threshold, result)`: builds a non-null
probe around the caller's threshold and forwards to `mem_probe`. -/
def check_memory_usage (name_present : Bool) (threshold : Nat)
    (result_present : Bool) (mem_usage mem_available now peak0 : Nat) :
    Nat × Option MemoryProbeResult × Nat :=
  mem_probe
    (some { name_present := name_present
            threshold := threshold
            timestamp := now
            level := 2 })
    result_present mem_usage mem_available now peak0

/-!
## Evaluation lemmas for the matrix kernels
-/

theorem flatIdx_lt {M N i j : Nat} (hi : i < M) (hj : j < N) : i * N + j < M * N := by
  calc i * N + j < i * N + N := by omega
  _ = (i + 1) * N := by ring
  _ ≤ M * N := Nat.mul_le_mul_right N hi

theorem flatIdx_inj {N i j i0 j0 : Nat} (hj : j < N) (hj0 : j0 < N)
    (h : i * N + j = i0 * N + j0) : i = i0 ∧ j = j0 := by
  have hfwd : ∀ a b ja jb : Nat, ja < N → a < b → ¬(a * N + ja = b * N + jb) := by
    intro a b ja jb hja hab heq
    have h1 : a * N + ja < a * N + N := by omega
    have h2 : a * N + N = (a + 1) * N := by ring
    have h3 : (a + 1) * N ≤ b * N := Nat.mul_le_mul_right N hab
    have h4 : b * N ≤ b * N + jb := Nat.le_add_right _ _
    omega
  have hi : i = i0 := by
    rcases Nat.lt_trichotomy i i0 with hlt | heq | hgt
    · exact absurd h (hfwd i i0 j j0 hj hlt)
    · exact heq
    · exact absurd h.symm (hfwd i0 i j0 j hj0 hgt)
  subst hi
  exact ⟨rfl, by omega⟩

theorem mem_pairList {M N : Nat} {y : Nat × Nat} :
    y ∈ pairList M N ↔ y.1 < M ∧ y.2 < N := by
  obtain ⟨a, b⟩ := y
  simp only [pairList, List.mem_flatMap, List.mem_range, List.mem_map, Prod.mk.injEq]
  constructor
  · rintro ⟨i, hi, j, hj, rfl, rfl⟩
    exact ⟨hi, hj⟩
  · rintro ⟨ha, hb⟩
    exact ⟨a, ha, b, hb, rfl, rfl⟩

theorem matmul_writeSeq_hit (v : Nat × Nat → ℚ) (C : Mem) (M N : Nat)
    {i j : Nat} (hi : i < M) (hj : j < N)
    (hcongr : ∀ y : Nat × Nat, y.2 < N → y.1 * N + y.2 = i * N + j → v y = v (i, j)) :
    writeSeq v (fun ij => ij.1 * N + ij.2) (pairList M N) C (i * N + j) = v (i, j) := by
  have hx : ((i, j) : Nat × Nat) ∈ pairList M N := mem_pairList.2 ⟨hi, hj⟩
  exact writeSeq_hit v _ (pairList M N) C (x := (i, j)) hx
    (fun y hy hk => hcongr y (mem_pairList.1 hy).2 hk)

theorem matmul_writeSeq_miss (v : Nat × Nat → ℚ) (C : Mem) (M N : Nat)
    {p : Nat} (hp : ¬ p < M * N) :
    writeSeq v (fun ij => ij.1 * N + ij.2) (pairList M N) C p = C p := by
  refine writeSeq_miss v _ (pairList M N) C p (fun y hy hk => ?_)
  obtain ⟨h1, h2⟩ := mem_pairList.1 hy
  exact hp (hk ▸ flatIdx_lt h1 h2)

theorem matrix_multiply_hit (A B : Mem) (C : Mem) (M K N : Nat)
    {i j : Nat} (hi : i < M) (hj : j < N) :
    matrix_multiply A B C M K N (i * N + j) = dotK A B K N i j := by
  unfold matrix_multiply
  exact matmul_writeSeq_hit _ C M N hi hj (fun y hy hk => by
    obtain ⟨h1, h2⟩ := flatIdx_inj hy hj hk
    rw [h1, h2])

theorem matrix_multiply_miss (A B : Mem) (C : Mem) (M K N : Nat)
    {p : Nat} (hp : ¬ p < M * N) :
    matrix_multiply A B C M K N p = C p := matmul_writeSeq_miss _ C M N hp

/-- The accumulated contribution of the updates `us` to cell `p`. -/
def sumFiltered (us : List (Nat × ℚ)) (p : Nat) : ℚ :=
  ((us.filter (fun u => u.1 == p)).map (fun u => u.2)).sum

theorem sumFiltered_nil (p : Nat) : sumFiltered [] p = 0 := rfl

theorem sumFiltered_append (us vs : List (Nat × ℚ)) (p : Nat) :
    sumFiltered (us ++ vs) p = sumFiltered us p + sumFiltered vs p := by
  simp [sumFiltered, List.filter_append]

theorem sumFiltered_flatMap {γ : Type} (l : List γ) (g : γ → List (Nat × ℚ)) (p : Nat) :
    sumFiltered (l.flatMap g) p = (l.map (fun x => sumFiltered (g x) p)).sum := by
  induction l with
  | nil => rfl
  | cons a tl ih => rw [List.flatMap_cons, sumFiltered_append, ih, List.map_cons, List.sum_cons]

theorem sumFiltered_zero (us : List (Nat × ℚ)) (p : Nat) (h : ∀ u ∈ us, u.1 ≠ p) :
    sumFiltered us p = 0 := by
  induction us with
  | nil => rfl
  | cons a tl ih =>
    have ha : (a.1 == p) = false := by
      simp only [beq_eq_false_iff_ne]
      exact h a (List.mem_cons_self a tl)
    simp only [sumFiltered, List.filter_cons, ha]
    exact ih (fun u hu => h u (List.mem_cons_of_mem a hu))

theorem applyUpdates_cons (C : Mem) (u : Nat × ℚ) (tl : List (Nat × ℚ)) :
    applyUpdates C (u :: tl) = applyUpdates (upd C u.1 (C u.1 + u.2)) tl := rfl

theorem applyUpdates_eval (us : List (Nat × ℚ)) (C : Mem) (p : Nat) :
    applyUpdates C us p = C p + sumFiltered us p := by
  induction us generalizing C with
  | nil => simp [applyUpdates, sumFiltered_nil]
  | cons u tl ih =>
    rw [applyUpdates_cons, ih]
    by_cases h : u.1 = p
    · have hflt : sumFiltered (u :: tl) p = u.2 + sumFiltered tl p := by
        simp [sumFiltered, List.filter_cons, h]
      rw [hflt, h, upd_same]
      ring
    · have hflt : sumFiltered (u :: tl) p = sumFiltered tl p := by
        simp [sumFiltered, List.filter_cons, h]
      rw [hflt, upd_other _ _ (fun hc => h hc.symm)]

theorem filter_beq_of_not_mem {l : List Nat} {a : Nat} (h : a ∉ l) :
    l.filter (fun x => x == a) = [] := by
  refine List.filter_eq_nil_iff.2 (fun x hx hbx => ?_)
  exact h ((beq_iff_eq.1 hbx) ▸ hx)

theorem filter_beq_range' (s len a : Nat) :
    (List.range' s len).filter (fun x => x == a) =
      if s ≤ a ∧ a < s + len then [a] else [] := by
  induction len generalizing s with
  | zero => simp
  | succ len ih =>
    rw [List.range'_succ, List.filter_cons]
    by_cases hsa : s = a
    · subst hsa
      have hnot : s ∉ List.range' (s + 1) len := by
        simp only [List.mem_range'_1]
        omega
      simp [filter_beq_of_not_mem hnot]
    · have hbf : (s == a) = false := by simpa using hsa
      rw [hbf, if_neg Bool.false_ne_true, ih]
      have hcond : (s + 1 ≤ a ∧ a < s + 1 + len) ↔ (s ≤ a ∧ a < s + (len + 1)) := by omega
      by_cases hc : s + 1 ≤ a ∧ a < s + 1 + len
      · rw [if_pos hc, if_pos (hcond.1 hc)]
      · rw [if_neg hc, if_neg (fun hcc => hc (hcond.2 hcc))]

theorem sum_map_ite_single {l : List Nat} (hnd : l.Nodup) (a : Nat) (c : ℚ) :
    ((l.map (fun x => if x = a then c else 0)).sum) = if a ∈ l then c else 0 := by
  induction l with
  | nil => simp
  | cons b tl ih =>
    have hnd' : tl.Nodup := hnd.of_cons
    have hb : b ∉ tl := by
      have := List.nodup_cons.1 hnd
      exact this.1
    rw [List.map_cons, List.sum_cons, ih hnd']
    by_cases hba : b = a
    · subst hba
      simp [hb]
    · have hiff : a ∈ b :: tl ↔ a ∈ tl := by
        rw [List.mem_cons]
        constructor
        · rintro (h | h)
          · exact absurd h.symm hba
          · exact h
        · exact Or.inr
      rw [if_neg hba, zero_add, if_congr hiff rfl rfl]

theorem sumFiltered_row {N : Nat} (ii i0 j0 : Nat) (v : Nat → ℚ) (s len : Nat)
    (hlen : len = 0 ∨ s + len ≤ N) (hj0 : j0 < N) :
    sumFiltered ((List.range' s len).map (fun jj => (ii * N + jj, v jj))) (i0 * N + j0) =
      if ii = i0 ∧ s ≤ j0 ∧ j0 < s + len then v j0 else 0 := by
  unfold sumFiltered
  rw [List.filter_map]
  by_cases hii : ii = i0
  · subst hii
    have hcong : List.filter
        ((fun u : Nat × ℚ => u.1 == ii * N + j0) ∘ fun jj => (ii * N + jj, v jj))
        (List.range' s len) = List.filter (fun x => x == j0) (List.range' s len) := by
      refine List.filter_congr (fun jj _ => ?_)
      show (ii * N + jj == ii * N + j0) = (jj == j0)
      by_cases hjj : jj = j0
      · simp [hjj]
      · have hne : ii * N + jj ≠ ii * N + j0 := by omega
        simp [hjj, hne]
    rw [hcong, filter_beq_range' s len j0]
    by_cases hc : s ≤ j0 ∧ j0 < s + len
    · rw [if_pos hc, if_pos ⟨rfl, hc⟩]
      simp
    · rw [if_neg hc, if_neg (fun hcc => hc hcc.2)]
      simp
  · have hnil : List.filter
        ((fun u : Nat × ℚ => u.1 == i0 * N + j0) ∘ fun jj => (ii * N + jj, v jj))
        (List.range' s len) = [] := by
      refine List.filter_eq_nil_iff.2 (fun jj hjj hbeq => ?_)
      have hjjN : jj < N := by
        have hm := (List.mem_range'_1).1 hjj
        rcases hlen with h0 | hle
        · subst h0
          omega
        · omega
      have heq : ii * N + jj = i0 * N + j0 := by
        have : ((fun u : Nat × ℚ => u.1 == i0 * N + j0) ∘ fun jj => (ii * N + jj, v jj)) jj
            = (ii * N + jj == i0 * N + j0) := rfl
        rw [this] at hbeq
        exact beq_iff_eq.1 hbeq
      exact hii (flatIdx_inj hjjN hj0 heq).1
    rw [hnil, if_neg (fun hcc => hii hcc.1)]
    simp

theorem clip_le {s len : Nat} : clip s len ≤ len := Nat.min_le_right _ _

theorem sumFiltered_blockEntries (A B : Mem) (M K N : Nat) (bi bj bk : Nat)
    {i0 j0 : Nat} (hj0 : j0 < N) :
    sumFiltered (blockEntries A B M K N bi bj bk) (i0 * N + j0) =
      if (bi ≤ i0 ∧ i0 < clip bi M) ∧ (bj ≤ j0 ∧ j0 < clip bj N) then
        accSumFrom 0 (fun kk => A (i0 * K + kk) * B (kk * N + j0))
          (List.range' bk (clip bk K - bk))
      else 0 := by
  unfold blockEntries
  rw [sumFiltered_flatMap]
  have hrow : ∀ ii ∈ List.range' bi (clip bi M - bi),
      sumFiltered ((List.range' bj (clip bj N - bj)).map (fun jj =>
          (ii * N + jj,
            accSumFrom 0 (fun kk => A (ii * K + kk) * B (kk * N + jj))
              (List.range' bk (clip bk K - bk))))) (i0 * N + j0) =
        if ii = i0 then
          (if (bj ≤ j0 ∧ j0 < clip bj N) then
            accSumFrom 0 (fun kk => A (i0 * K + kk) * B (kk * N + j0))
              (List.range' bk (clip bk K - bk))
          else 0)
        else 0 := by
    intro ii _
    rw [sumFiltered_row ii i0 j0 _ bj (clip bj N - bj)
      (by simp only [clip]; omega) hj0]
    by_cases hii : ii = i0
    · subst hii
      by_cases hc : bj ≤ j0 ∧ j0 < bj + (clip bj N - bj)
      · rw [if_pos ⟨rfl, hc⟩, if_pos rfl, if_pos (by omega)]
      · rw [if_neg (fun hcc => hc hcc.2), if_pos rfl, if_neg (by omega)]
    · rw [if_neg (fun hcc => hii hcc.1), if_neg hii]
  rw [List.map_congr_left hrow, sum_map_ite_single (List.nodup_range' _ _) i0 _]
  have hmem : i0 ∈ List.range' bi (clip bi M - bi) ↔ (bi ≤ i0 ∧ i0 < clip bi M) := by
    rw [List.mem_range'_1]
    have := @clip_le bi M
    simp only [clip] at *
    omega
  by_cases hI : bi ≤ i0 ∧ i0 < clip bi M
  · rw [if_pos (hmem.2 hI)]
    by_cases hJ : bj ≤ j0 ∧ j0 < clip bj N
    · rw [if_pos hJ, if_pos ⟨hI, hJ⟩]
    · rw [if_neg hJ, if_neg (fun hc => hJ hc.2)]
  · rw [if_neg (fun hc => hI (hmem.1 hc)), if_neg (fun hc => hI hc.1)]

theorem sum_Ico_blocks (g : Nat → ℚ) (len m : Nat) :
    (∑ t ∈ Finset.range m, ∑ i ∈ Finset.Ico (32 * t) (min (32 * t + 32) len), g i) =
      ∑ i ∈ Finset.Ico 0 (min (32 * m) len), g i := by
  induction m with
  | zero => simp
  | succ m ih =>
    rw [Finset.sum_range_succ, ih]
    by_cases h : 32 * m ≤ len
    · have h1 : min (32 * m) len = 32 * m := by omega
      have h2 : min (32 * (m + 1)) len = min (32 * m + 32) len := by omega
      rw [h1, h2]
      exact Finset.sum_Ico_consecutive g (by omega) (by omega)
    · have h1 : min (32 * (m + 1)) len = min (32 * m) len := by omega
      have hempty : Finset.Ico (32 * m) (min (32 * m + 32) len) = ∅ :=
        Finset.Ico_eq_empty (by omega)
      rw [hempty, Finset.sum_empty, add_zero, h1]

theorem sum_blocks_accSum (g : Nat → ℚ) (len : Nat) :
    ((blockStarts len).map
        (fun bk => accSumFrom 0 g (List.range' bk (clip bk len - bk)))).sum =
      accSumFrom 0 g (List.range len) := by
  unfold blockStarts
  rw [List.map_map]
  have hmapeq : ∀ t ∈ List.range ((len + 31) / 32),
      ((fun bk => accSumFrom 0 g (List.range' bk (clip bk len - bk))) ∘ (fun t => 32 * t)) t =
        ∑ i ∈ Finset.Ico (32 * t) (min (32 * t + 32) len), g i := by
    intro t _
    simp only [Function.comp_apply]
    rw [accSumFrom_eq, sum_map_range', zero_add]
    have hico : Finset.Ico (32 * t) (32 * t + (clip (32 * t) len - 32 * t)) =
        Finset.Ico (32 * t) (min (32 * t + 32) len) := by
      simp only [clip]
      rcases le_total (32 * t) (min (32 * t + 32) len) with h | h
      · congr 1
        omega
      · rw [Finset.Ico_eq_empty (by omega), Finset.Ico_eq_empty (by omega)]
    rw [hico]
  rw [List.map_congr_left hmapeq, sum_map_range, sum_Ico_blocks]
  have hm : min (32 * ((len + 31) / 32)) len = len := by omega
  rw [hm, ← Finset.range_eq_Ico, accSumFrom_eq, sum_map_range, zero_add]

theorem mem_blockStarts {len b : Nat} :
    b ∈ blockStarts len ↔ ∃ t, t < (len + 31) / 32 ∧ b = 32 * t := by
  simp only [blockStarts, List.mem_map, List.mem_range]
  constructor
  · rintro ⟨t, ht, rfl⟩
    exact ⟨t, ht, rfl⟩
  · rintro ⟨t, ht, rfl⟩
    exact ⟨t, ht, rfl⟩

theorem nodup_blockStarts (len : Nat) : (blockStarts len).Nodup :=
  (List.nodup_range _).map (fun a b h => by omega)

theorem sumFiltered_blockedUpdates (A B : Mem) (M K N : Nat) {i0 j0 : Nat}
    (hi0 : i0 < M) (hj0 : j0 < N) :
    sumFiltered (blockedUpdates A B M K N) (i0 * N + j0) = dotK A B K N i0 j0 := by
  have hK : ∀ bi bj,
      sumFiltered ((blockStarts K).flatMap (fun bk => blockEntries A B M K N bi bj bk))
          (i0 * N + j0) =
        if (bi ≤ i0 ∧ i0 < clip bi M) ∧ (bj ≤ j0 ∧ j0 < clip bj N) then
          dotK A B K N i0 j0
        else 0 := by
    intro bi bj
    rw [sumFiltered_flatMap]
    by_cases hc : (bi ≤ i0 ∧ i0 < clip bi M) ∧ (bj ≤ j0 ∧ j0 < clip bj N)
    · have hcongr : ∀ bk ∈ blockStarts K,
          sumFiltered (blockEntries A B M K N bi bj bk) (i0 * N + j0) =
            accSumFrom 0 (fun kk => A (i0 * K + kk) * B (kk * N + j0))
              (List.range' bk (clip bk K - bk)) := by
        intro bk _
        rw [sumFiltered_blockEntries A B M K N bi bj bk hj0, if_pos hc]
      rw [List.map_congr_left hcongr, sum_blocks_accSum, if_pos hc]
      rfl
    · have hcongr : ∀ bk ∈ blockStarts K,
          sumFiltered (blockEntries A B M K N bi bj bk) (i0 * N + j0) = 0 := by
        intro bk _
        rw [sumFiltered_blockEntries A B M K N bi bj bk hj0, if_neg hc]
      rw [List.map_congr_left hcongr, if_neg hc]
      simp
  have hJ : ∀ bi,
      sumFiltered ((blockStarts N).flatMap (fun bj =>
          (blockStarts K).flatMap (fun bk => blockEntries A B M K N bi bj bk)))
          (i0 * N + j0) =
        if bi ≤ i0 ∧ i0 < clip bi M then dotK A B K N i0 j0 else 0 := by
    intro bi
    rw [sumFiltered_flatMap]
    by_cases hI : bi ≤ i0 ∧ i0 < clip bi M
    · have hcongr : ∀ bj ∈ blockStarts N,
          sumFiltered ((blockStarts K).flatMap (fun bk => blockEntries A B M K N bi bj bk))
              (i0 * N + j0) =
            if bj = 32 * (j0 / 32) then dotK A B K N i0 j0 else 0 := by
        intro bj hbj
        obtain ⟨t, ht, rfl⟩ := mem_blockStarts.1 hbj
        rw [hK bi (32 * t)]
        have hcond : ((bi ≤ i0 ∧ i0 < clip bi M) ∧ (32 * t ≤ j0 ∧ j0 < clip (32 * t) N)) ↔
            32 * t = 32 * (j0 / 32) := by
          simp only [clip]
          constructor
          · intro hcc
            have := hcc.2
            omega
          · intro hcc
            refine ⟨hI, ?_⟩
            omega
        by_cases hc : 32 * t = 32 * (j0 / 32)
        · rw [if_pos (hcond.2 hc), if_pos hc]
        · rw [if_neg (fun hcc => hc (hcond.1 hcc)), if_neg hc]
      rw [List.map_congr_left hcongr, sum_map_ite_single (nodup_blockStarts N)]
      have hmem : 32 * (j0 / 32) ∈ blockStarts N :=
        mem_blockStarts.2 ⟨j0 / 32, by omega, rfl⟩
      rw [if_pos hmem, if_pos hI]
    · have hcongr : ∀ bj ∈ blockStarts N,
          sumFiltered ((blockStarts K).flatMap (fun bk => blockEntries A B M K N bi bj bk))
              (i0 * N + j0) = 0 := by
        intro bj _
        rw [hK bi bj, if_neg (fun hcc => hI hcc.1)]
      rw [List.map_congr_left hcongr, if_neg hI]
      simp
  unfold blockedUpdates
  rw [sumFiltered_flatMap]
  have hcongr : ∀ bi ∈ blockStarts M,
      sumFiltered ((blockStarts N).flatMap (fun bj =>
          (blockStarts K).flatMap (fun bk => blockEntries A B M K N bi bj bk)))
          (i0 * N + j0) =
        if bi = 32 * (i0 / 32) then dotK A B K N i0 j0 else 0 := by
    intro bi hbi
    obtain ⟨t, ht, rfl⟩ := mem_blockStarts.1 hbi
    rw [hJ (32 * t)]
    have hcond : (32 * t ≤ i0 ∧ i0 < clip (32 * t) M) ↔ 32 * t = 32 * (i0 / 32) := by
      simp only [clip]
      omega
    by_cases hc : 32 * t = 32 * (i0 / 32)
    · rw [if_pos (hcond.2 hc), if_pos hc]
    · rw [if_neg (fun hcc => hc (hcond.1 hcc)), if_neg hc]
  rw [List.map_congr_left hcongr, sum_map_ite_single (nodup_blockStarts M)]
  have hmem : 32 * (i0 / 32) ∈ blockStarts M :=
    mem_blockStarts.2 ⟨i0 / 32, by omega, rfl⟩
  rw [if_pos hmem]

theorem blockedUpdates_key_lt (A B : Mem) (M K N : Nat) :
    ∀ u ∈ blockedUpdates A B M K N, u.1 < M * N := by
  intro u hu
  simp only [blockedUpdates, blockEntries, List.mem_flatMap, List.mem_map,
    List.mem_range'_1] at hu
  obtain ⟨bi, hbi, bj, hbj, bk, hbk, ii, hii, jj, hjj, rfl⟩ := hu
  have hiiM : ii < M := by
    have h1 : clip bi M ≤ M := clip_le
    simp only [clip] at *
    omega
  have hjjN : jj < N := by
    have h1 : clip bj N ≤ N := clip_le
    simp only [clip] at *
    omega
  exact flatIdx_lt hiiM hjjN

/-- The cache-blocked multiply writes exactly the naive triple-loop product:
the two kernels agree on **every** cell of memory. -/
theorem matrix_multiply_optimized_eq (A B : Mem) (C : Mem) (M K N : Nat)
    (simd_type : Option String) (p : Nat) :
    matrix_multiply_optimized A B C M K N simd_type p =
      matrix_multiply A B C M K N p := by
  unfold matrix_multiply_optimized
  rw [applyUpdates_eval]
  by_cases hp : p < M * N
  · have hN : 0 < N := by
      rcases Nat.eq_zero_or_pos N with h0 | h
      · rw [h0, Nat.mul_zero] at hp
        omega
      · exact h
    have hj0 : p % N < N := Nat.mod_lt _ hN
    have hi0 : p / N < M := (Nat.div_lt_iff_lt_mul hN).2 hp
    have hdecomp : p = p / N * N + p % N := by
      have h2 := Nat.div_add_mod p N
      have h3 : N * (p / N) = p / N * N := Nat.mul_comm _ _
      omega
    rw [hdecomp, sumFiltered_blockedUpdates A B M K N hi0 hj0,
      matrix_multiply_hit A B C M K N hi0 hj0]
    have hz : zeroFill C (M * N) (p / N * N + p % N) = 0 := by
      unfold zeroFill
      rw [if_pos (hdecomp ▸ hp)]
    rw [hz, zero_add]
  · rw [matrix_multiply_miss A B C M K N hp,
      sumFiltered_zero _ _ (fun u hu hc =>
        hp (by rw [← hc]; exact blockedUpdates_key_lt A B M K N u hu))]
    unfold zeroFill
    rw [if_neg hp, add_zero]

/-!
## Agreement of the tier kernels with the scalar baselines
-/

theorem writeSeq_id_eval {α : Type} (g : Nat → α) (idxs : List Nat) (m : Nat → α)
    {j : Nat} (hj : j ∈ idxs) : writeSeq g id idxs m j = g j :=
  writeSeq_hit g id idxs m (x := j) hj (fun y _ hk => congrArg g hk)

theorem writeSeq_id_frame {α : Type} (g : Nat → α) (idxs : List Nat) (m : Nat → α)
    {j : Nat} (hj : j ∉ idxs) : writeSeq g id idxs m j = m j :=
  writeSeq_miss g id idxs m j (fun x hx hk => hj (hk ▸ hx))

theorem ceil_kernel_eval {α : Type} (g : Nat → α) (w n : Nat) (hw : 0 < w)
    (m : Nat → α) {j : Nat} (hj : j < n) :
    writeSeq g id (ceilChunkIdxs w n) m j = g j :=
  writeSeq_id_eval g _ m ((mem_ceilChunkIdxs hw).2 (lt_ceil_chunks hw hj))

theorem chunkrem_kernel_eval {α : Type} (g : Nat → α) (w n : Nat) (hw : 0 < w)
    (m : Nat → α) {j : Nat} (hj : j < n) :
    writeSeq g id (chunkIdxs w n ++ remIdxs w n) m j = g j :=
  writeSeq_id_eval g _ m ((mem_chunk_rem hw).2 hj)

theorem chunkrem_kernel_frame {α : Type} (g : Nat → α) (w n : Nat) (hw : 0 < w)
    (m : Nat → α) {j : Nat} (hj : ¬ j < n) :
    writeSeq g id (chunkIdxs w n ++ remIdxs w n) m j = m j :=
  writeSeq_id_frame g _ m (fun hm => hj ((mem_chunk_rem hw).1 hm))

theorem range_kernel_eval {α : Type} (g : Nat → α) (n : Nat)
    (m : Nat → α) {j : Nat} (hj : j < n) :
    writeSeq g id (List.range n) m j = g j :=
  writeSeq_id_eval g _ m (List.mem_range.2 hj)

theorem range_kernel_frame {α : Type} (g : Nat → α) (n : Nat)
    (m : Nat → α) {j : Nat} (hj : ¬ j < n) :
    writeSeq g id (List.range n) m j = m j :=
  writeSeq_id_frame g _ m (fun hm => hj (List.mem_range.1 hm))

/-- The NEON per-cell reduction of `asm_matrix_multiply` equals `dotK`. -/
theorem neon_cell_eq_dotK (A B : Mem) (K N i j : Nat) :
    accSumFrom (0 + hAdd 4 (laneAcc 4 (fun k => A (i * K + k) * B (k * N + j)) (K / 4)))
        (fun k => A (i * K + k) * B (k * N + j)) (remIdxs 4 K) = dotK A B K N i j :=
  dot_chunks_eq 4 (by omega) _ K

/-!
## Claim theorems
-/

/-- C1 (code bug exhibited): contrary to the spec's invariant that every
kernel accesses exactly cells `0 … size-1` with a scalar remainder pass, the
AVX-512 elementwise multiply of `simd_kernels.cpp` at `size = 1` processes a
full 16-wide chunk: cell 15 of the output buffer, initially 0, is
overwritten with `a[15] * b[15] = 1`. -/
theorem claim_C1_kernel_overrun :
    matrix_mult_avx512 (fun _ => 1) (fun _ => 1) (fun _ => 0) 1 15 = 1 ∧
      (1 : ℚ) ≠ 0 := by
  constructor
  · unfold matrix_mult_avx512
    have h15 : (15 : Nat) ∈ ceilChunkIdxs 16 1 := by
      rw [mem_ceilChunkIdxs (by omega)]
      omega
    rw [writeSeq_id_eval _ _ _ h15]
    norm_num
  · norm_num

/-- C5 (code bug exhibited): `vector_scale_sse42([1,2,3,…],2,3)` does yield
`[2,4,6]` in cells 0–2, but — because the 4-wide loop has no remainder
pass — it also scales cell 3 (initially 7, scaled to 14), touching an
element outside `0 … size-1`. -/
theorem claim_C5_scale_overrun :
    (vector_scale_sse42
        (fun i => if i = 0 then 1 else if i = 1 then 2 else if i = 2 then 3
          else if i = 3 then 7 else 0) 2 3) 0 = 2 ∧
    (vector_scale_sse42
        (fun i => if i = 0 then 1 else if i = 1 then 2 else if i = 2 then 3
          else if i = 3 then 7 else 0) 2 3) 1 = 4 ∧
    (vector_scale_sse42
        (fun i => if i = 0 then 1 else if i = 1 then 2 else if i = 2 then 3
          else if i = 3 then 7 else 0) 2 3) 2 = 6 ∧
    (vector_scale_sse42
        (fun i => if i = 0 then 1 else if i = 1 then 2 else if i = 2 then 3
          else if i = 3 then 7 else 0) 2 3) 3 = 14 ∧ (14 : ℚ) ≠ 7 := by
  unfold vector_scale_sse42
  have h3 : (3 : Nat) ∈ ceilChunkIdxs 4 3 := by
    rw [mem_ceilChunkIdxs (by omega)]
    omega
  refine ⟨?_, ?_, ?_, ?_, by norm_num⟩
  · rw [ceil_kernel_eval _ 4 3 (by omega) _ (by omega)]
    norm_num
  · rw [ceil_kernel_eval _ 4 3 (by omega) _ (by omega)]
    norm_num
  · rw [ceil_kernel_eval _ 4 3 (by omega) _ (by omega)]
    norm_num
  · rw [writeSeq_id_eval _ _ _ h3]
    norm_num

/-- C2: for every embedded tier of every operation and every size `n`
(including sizes not a multiple of any vector width) the tier's output
agrees with the scalar baseline on every output cell `j < n` —
exactly, in the exact-arithmetic embedding, which implies both the claimed
bit-for-bit equality for add/scale/bitwise and the `1e-5` relative
tolerance for multiply/dot/FMA reductions. -/
theorem claim_C2_tiers_refine_baseline :
    (∀ (a b c : Mem) (n j : Nat), j < n →
      (matrix_mult_avx512 a b c n j = matrix_mult_baseline a b c n j ∧
       matrix_mult_avx2 a b c n j = matrix_mult_baseline a b c n j ∧
       matrix_mult_avx a b c n j = matrix_mult_baseline a b c n j ∧
       matrix_mult_sse42 a b c n j = matrix_mult_baseline a b c n j ∧
       matrix_mult_neon a b c n j = matrix_mult_baseline a b c n j)) ∧
    (∀ (a b c : Mem) (n j : Nat), j < n →
      (matrix_add_avx512 a b c n j = matrix_add_baseline a b c n j ∧
       matrix_add_avx2 a b c n j = matrix_add_baseline a b c n j ∧
       matrix_add_avx a b c n j = matrix_add_baseline a b c n j ∧
       matrix_add_sse42 a b c n j = matrix_add_baseline a b c n j ∧
       matrix_add_neon a b c n j = matrix_add_baseline a b c n j)) ∧
    (∀ (vec : Mem) (s : ℚ) (n j : Nat), j < n →
      (vector_scale_avx512 vec s n j = vector_scale_baseline vec s n j ∧
       vector_scale_avx2 vec s n j = vector_scale_baseline vec s n j ∧
       vector_scale_avx vec s n j = vector_scale_baseline vec s n j ∧
       vector_scale_sse42 vec s n j = vector_scale_baseline vec s n j ∧
       vector_scale_neon vec s n j = vector_scale_baseline vec s n j)) ∧
    (∀ (a b c r : Mem) (n j : Nat), j < n →
      (fma_avx512 a b c r n j = fma_baseline a b c r n j ∧
       fma_avx2 a b c r n j = fma_baseline a b c r n j ∧
       fma_neon a b c r n j = fma_baseline a b c r n j)) ∧
    (∀ (A B C : Mem) (n j : Nat), j < n →
      (asm_matrix_add_avx2 A B C n j = asm_matrix_add_base A B C n j ∧
       asm_matrix_add_sse42 A B C n j = asm_matrix_add_base A B C n j ∧
       asm_matrix_add_neon A B C n j = asm_matrix_add_base A B C n j ∧
       asm_matrix_add_apple A B C n j = asm_matrix_add_base A B C n j)) ∧
    (∀ (A B : Mem) (s : ℚ) (n j : Nat), j < n →
      (asm_vector_scale_avx2 A B s n j = asm_vector_scale_base A B s n j ∧
       asm_vector_scale_sse42 A B s n j = asm_vector_scale_base A B s n j ∧
       asm_vector_scale_neon A B s n j = asm_vector_scale_base A B s n j ∧
       asm_vector_scale_apple A B s n j = asm_vector_scale_base A B s n j)) ∧
    (∀ (A B : Mem) (n : Nat),
      (asm_vector_dot_avx2 A B n = asm_vector_dot_base A B n ∧
       asm_vector_dot_sse42 A B n = asm_vector_dot_base A B n ∧
       asm_vector_dot_neon A B n = asm_vector_dot_base A B n ∧
       asm_vector_dot_arm_base A B n = asm_vector_dot_base A B n ∧
       asm_vector_dot_apple A B n = asm_vector_dot_base A B n)) ∧
    (∀ (A B C : IMem) (n j : Nat), j < n →
      (asm_vector_bitwise_or_avx2 A B C n j = asm_vector_bitwise_or_base A B C n j ∧
       asm_vector_bitwise_or_sse42 A B C n j = asm_vector_bitwise_or_base A B C n j ∧
       asm_vector_bitwise_or_neon A B C n j = asm_vector_bitwise_or_base A B C n j ∧
       asm_vector_bitwise_and_avx2 A B C n j = asm_vector_bitwise_and_base A B C n j ∧
       asm_vector_bitwise_and_sse42 A B C n j = asm_vector_bitwise_and_base A B C n j ∧
       asm_vector_bitwise_and_neon A B C n j = asm_vector_bitwise_and_base A B C n j)) ∧
    (∀ (A B C : Mem) (M K N p : Nat),
      (asm_matrix_multiply_neon A B C M K N p = asm_matrix_multiply_base A B C M K N p ∧
       asm_matrix_multiply_apple A B C M K N p = asm_matrix_multiply_base A B C M K N p)) := by
  refine ⟨?_, ?_, ?_, ?_, ?_, ?_, ?_, ?_, ?_⟩
  · intro a b c n j hj
    unfold matrix_mult_avx512 matrix_mult_avx2 matrix_mult_avx matrix_mult_sse42
      matrix_mult_neon matrix_mult_baseline
    rw [range_kernel_eval _ n _ hj]
    exact ⟨ceil_kernel_eval _ 16 n (by omega) _ hj, ceil_kernel_eval _ 8 n (by omega) _ hj,
      ceil_kernel_eval _ 8 n (by omega) _ hj, ceil_kernel_eval _ 4 n (by omega) _ hj,
      ceil_kernel_eval _ 4 n (by omega) _ hj⟩
  · intro a b c n j hj
    unfold matrix_add_avx512 matrix_add_avx2 matrix_add_avx matrix_add_sse42
      matrix_add_neon matrix_add_baseline
    rw [range_kernel_eval _ n _ hj]
    exact ⟨ceil_kernel_eval _ 16 n (by omega) _ hj, ceil_kernel_eval _ 8 n (by omega) _ hj,
      ceil_kernel_eval _ 8 n (by omega) _ hj, ceil_kernel_eval _ 4 n (by omega) _ hj,
      ceil_kernel_eval _ 4 n (by omega) _ hj⟩
  · intro vec s n j hj
    unfold vector_scale_avx512 vector_scale_avx2 vector_scale_avx vector_scale_sse42
      vector_scale_neon vector_scale_baseline
    rw [range_kernel_eval _ n _ hj]
    exact ⟨ceil_kernel_eval _ 16 n (by omega) _ hj, ceil_kernel_eval _ 8 n (by omega) _ hj,
      ceil_kernel_eval _ 8 n (by omega) _ hj, ceil_kernel_eval _ 4 n (by omega) _ hj,
      ceil_kernel_eval _ 4 n (by omega) _ hj⟩
  · intro a b c r n j hj
    unfold fma_avx512 fma_avx2 fma_neon fma_baseline
    rw [range_kernel_eval _ n _ hj]
    refine ⟨ceil_kernel_eval _ 16 n (by omega) _ hj, ceil_kernel_eval _ 8 n (by omega) _ hj, ?_⟩
    rw [ceil_kernel_eval _ 4 n (by omega) _ hj]
    ring
  · intro A B C n j hj
    unfold asm_matrix_add_avx2 asm_matrix_add_sse42 asm_matrix_add_neon
      asm_matrix_add_apple asm_matrix_add_base
    rw [range_kernel_eval _ n _ hj]
    exact ⟨chunkrem_kernel_eval _ 8 n (by omega) _ hj, chunkrem_kernel_eval _ 4 n (by omega) _ hj,
      chunkrem_kernel_eval _ 4 n (by omega) _ hj, rfl⟩
  · intro A B s n j hj
    unfold asm_vector_scale_avx2 asm_vector_scale_sse42 asm_vector_scale_neon
      asm_vector_scale_apple asm_vector_scale_base
    rw [range_kernel_eval _ n _ hj]
    exact ⟨chunkrem_kernel_eval _ 8 n (by omega) _ hj, chunkrem_kernel_eval _ 4 n (by omega) _ hj,
      chunkrem_kernel_eval _ 4 n (by omega) _ hj, rfl⟩
  · intro A B n
    unfold asm_vector_dot_avx2 asm_vector_dot_sse42 asm_vector_dot_neon
      asm_vector_dot_arm_base asm_vector_dot_apple vDSP_dotpr asm_vector_dot_base
    exact ⟨dot_chunks_eq 8 (by omega) _ n, dot_chunks_eq 4 (by omega) _ n,
      dot_chunks_eq 4 (by omega) _ n, rfl, rfl⟩
  · intro A B C n j hj
    unfold asm_vector_bitwise_or_avx2 asm_vector_bitwise_or_sse42
      asm_vector_bitwise_or_neon asm_vector_bitwise_or_base
      asm_vector_bitwise_and_avx2 asm_vector_bitwise_and_sse42
      asm_vector_bitwise_and_neon asm_vector_bitwise_and_base
    refine ⟨?_, ?_, ?_, ?_, ?_, ?_⟩ <;>
      rw [range_kernel_eval _ n _ hj] <;>
      first
      | exact chunkrem_kernel_eval _ 8 n (by omega) _ hj
      | exact chunkrem_kernel_eval _ 4 n (by omega) _ hj
  · intro A B C M K N p
    constructor
    · unfold asm_matrix_multiply_neon asm_matrix_multiply_base
      rw [writeSeq_congr _ (fun ij => dotK A B K N ij.1 ij.2) _ (pairList M N) C
        (fun x _ => neon_cell_eq_dotK A B K N x.1 x.2)]
    · rfl

/-- C3: for **all** dimensions `M, K, N` (smaller than, equal to, or not a
multiple of the 32-extent block) the cache-blocked
`matrix_multiply_optimized`, writing into its zero-initialized output,
agrees with the naive triple-loop `matrix_multiply` on every memory cell —
exactly, in the exact-arithmetic embedding (hence within any tolerance);
edge blocks are clipped by `clip` and no cell outside the output is
touched. -/
theorem claim_C3_blocked_equals_naive :
    ∀ (A B C : Mem) (M K N : Nat) (simd_type : Option String) (p : Nat),
      matrix_multiply_optimized A B C M K N simd_type p =
        matrix_multiply A B C M K N p :=
  fun A B C M K N simd_type p => matrix_multiply_optimized_eq A B C M K N simd_type p

/-- The vectors of the spec's dot-product example scenario. -/
def dotExampleA : Mem := fun i =>
  if i = 0 then 1 else if i = 1 then 2 else if i = 2 then 3 else if i = 3 then 4 else 0

/-- The second vector of the spec's dot-product example scenario. -/
def dotExampleB : Mem := fun i =>
  if i = 0 then 5 else if i = 1 then 6 else if i = 2 then 7 else if i = 3 then 8 else 0

/-- C4: `vector_dot([1,2,3,4],[5,6,7,8],4) = 70` on every compile-time
branch of `asm_vector_dot` — AVX2, SSE4.2, NEON, ARM-without-NEON, the
scalar fallback, and the (spec-modelled) Accelerate branch. -/
theorem claim_C4_dot_example :
    asm_vector_dot_avx2 dotExampleA dotExampleB 4 = 70 ∧
    asm_vector_dot_sse42 dotExampleA dotExampleB 4 = 70 ∧
    asm_vector_dot_neon dotExampleA dotExampleB 4 = 70 ∧
    asm_vector_dot_arm_base dotExampleA dotExampleB 4 = 70 ∧
    asm_vector_dot_base dotExampleA dotExampleB 4 = 70 ∧
    asm_vector_dot_apple dotExampleA dotExampleB 4 = 70 := by
  have hbase : asm_vector_dot_base dotExampleA dotExampleB 4 = 70 := by
    unfold asm_vector_dot_base accSumFrom dotExampleA dotExampleB
    norm_num [List.range_succ]
  have h1 : asm_vector_dot_avx2 dotExampleA dotExampleB 4 =
      asm_vector_dot_base dotExampleA dotExampleB 4 := by
    unfold asm_vector_dot_avx2 asm_vector_dot_base
    exact dot_chunks_eq 8 (by omega) _ 4
  have h2 : asm_vector_dot_sse42 dotExampleA dotExampleB 4 =
      asm_vector_dot_base dotExampleA dotExampleB 4 := by
    unfold asm_vector_dot_sse42 asm_vector_dot_base
    exact dot_chunks_eq 4 (by omega) _ 4
  have h3 : asm_vector_dot_neon dotExampleA dotExampleB 4 =
      asm_vector_dot_base dotExampleA dotExampleB 4 := by
    unfold asm_vector_dot_neon asm_vector_dot_base
    exact dot_chunks_eq 4 (by omega) _ 4
  exact ⟨h1.trans hbase, h2.trans hbase, h3.trans hbase, hbase, hbase, hbase⟩

/-- C9: the `simd_type` hint is dead input for the computed result — for any
two non-null hints, `matrix_multiply_optimized` (and hence
`dispatch_matrix_multiply` with an explicit hint) writes the identical
output memory. -/
theorem claim_C9_hint_noninterference :
    ∀ (cfg : BuildConfig) (A B C : Mem) (M K N : Nat) (h1 h2 : String),
      matrix_multiply_optimized A B C M K N (some h1) =
        matrix_multiply_optimized A B C M K N (some h2) ∧
      dispatch_matrix_multiply cfg A B C M K N (some h1) =
        dispatch_matrix_multiply cfg A B C M K N (some h2) :=
  fun _ _ _ _ _ _ _ _ _ => ⟨rfl, rfl⟩

theorem dispatch_none_eq_naive (cfg : BuildConfig) (A B C : Mem) (M K N : Nat)
    (p : Nat) :
    dispatch_matrix_multiply cfg A B C M K N none p = matrix_multiply A B C M K N p := by
  unfold dispatch_matrix_multiply
  cases hsel : selected_simd_type cfg with
  | none => rfl
  | some s => exact matrix_multiply_optimized_eq A B C M K N (some s) p

/-- C6: with a null `simd_type` hint the dispatcher's `#if` chain selects
exactly the widest compiled-in tier in the priority order
AVX-512 > AVX2 > AVX > SSE4.2 > NEON > scalar baseline (the spec-side
first-match definition `spec_widest_tier`), and for every build
configuration the dispatched computation always writes the full naive
matrix product into `C`. -/
theorem claim_C6_dispatch :
    (∀ cfg : BuildConfig, selected_simd_type cfg = spec_widest_tier cfg) ∧
    (∀ (cfg : BuildConfig) (A B C : Mem) (M K N : Nat),
      (∀ p, dispatch_matrix_multiply cfg A B C M K N none p =
        matrix_multiply A B C M K N p) ∧
      (∀ i j, i < M → j < N →
        dispatch_matrix_multiply cfg A B C M K N none (i * N + j) = dotK A B K N i j)) := by
  constructor
  · intro cfg
    obtain ⟨a, b, c, d, e⟩ := cfg
    cases a <;> cases b <;> cases c <;> cases d <;> cases e <;> rfl
  · intro cfg A B C M K N
    refine ⟨dispatch_none_eq_naive cfg A B C M K N, fun i j hi hj => ?_⟩
    rw [dispatch_none_eq_naive cfg A B C M K N (i * N + j),
      matrix_multiply_hit A B C M K N hi hj]

/-- AVX2 counts as detected (spec §4.1's bit-to-feature table) when the
base query succeeded and bit 5 of the extended leaf's `ebx` is set. -/
def avx2_detected (leaf1 leaf7 : Option CpuidRegs) : Prop :=
  (∃ r1, leaf1 = some r1) ∧ ∃ r7, leaf7 = some r7 ∧ r7.ebx &&& (1 <<< 5) ≠ 0

/-- SSE4.2 counts as detected (spec §4.1's bit-to-feature table: the
architectural SSE4.2 flag is bit 20 of the **base** leaf's `ecx`) when the
base query succeeded and that bit is set. -/
def sse42_detected (leaf1 : Option CpuidRegs) : Prop :=
  ∃ r1, leaf1 = some r1 ∧ r1.ecx &&& (1 <<< 20) ≠ 0

/-- Prefetch (CLFLUSH, `edx` bit 9 of the base leaf) counts as detected. -/
def prefetch_detected (leaf1 : Option CpuidRegs) : Prop :=
  ∃ r1, leaf1 = some r1 ∧ r1.edx &&& (1 <<< 9) ≠ 0

theorem testBit_ite (c : Prop) [Decidable c] (k i : Nat) :
    (if c then k else 0).testBit i = (decide c && k.testBit i) := by
  by_cases h : c
  · simp [h]
  · simp [h]

theorem and_128_ne_iff (x : Nat) : x &&& 128 ≠ 0 ↔ x.testBit 7 = true := by
  rw [show (128 : Nat) = 2 ^ 7 from rfl, Nat.and_two_pow]
  cases h : x.testBit 7 <;> simp [h]

theorem features_bit7 (edxv ecxv ebxv : Nat) :
    ((if edxv &&& (1 <<< 25) ≠ 0 then 1 else 0) |||
     (if edxv &&& (1 <<< 26) ≠ 0 then 2 else 0) |||
     (if ecxv &&& (1 <<< 0) ≠ 0 then 4 else 0) |||
     (if ecxv &&& (1 <<< 9) ≠ 0 then 8 else 0) |||
     (if ecxv &&& (1 <<< 19) ≠ 0 then 16 else 0) |||
     (if ecxv &&& (1 <<< 20) ≠ 0 then 32 else 0) |||
     (if ecxv &&& (1 <<< 28) ≠ 0 then 64 else 0) |||
     (if ebxv &&& (1 <<< 5) ≠ 0 then 128 else 0)) &&& 128 ≠ 0 ↔
      ebxv &&& (1 <<< 5) ≠ 0 := by
  rw [and_128_ne_iff]
  simp only [Nat.testBit_lor, testBit_ite,
    show Nat.testBit 1 7 = false from by decide,
    show Nat.testBit 2 7 = false from by decide,
    show Nat.testBit 4 7 = false from by decide,
    show Nat.testBit 8 7 = false from by decide,
    show Nat.testBit 16 7 = false from by decide,
    show Nat.testBit 32 7 = false from by decide,
    show Nat.testBit 64 7 = false from by decide,
    show Nat.testBit 128 7 = true from by decide,
    Bool.and_false, Bool.and_true, Bool.or_false, Bool.false_or]
  simp

/-- The AVX2 bit of the feature mask is faithful to the intent even under
the register clobbering: it always reads `ebx` of the extended leaf. -/
theorem detect_features_avx2_bit (leaf1 leaf7 : Option CpuidRegs) :
    detect_cpu_features leaf1 leaf7 &&& 128 ≠ 0 ↔ avx2_detected leaf1 leaf7 := by
  cases leaf1 with
  | none => simp [detect_cpu_features, avx2_detected]
  | some r1 =>
    cases leaf7 with
    | none =>
      unfold detect_cpu_features avx2_detected
      rw [features_bit7 r1.edx r1.ecx 0]
      simp
    | some r7 =>
      unfold detect_cpu_features avx2_detected
      rw [features_bit7 r7.edx r7.ecx r7.ebx]
      simp

theorem detect_prefetch_bit (leaf1 : Option CpuidRegs) :
    detect_prefetch_support leaf1 = true ↔ prefetch_detected leaf1 := by
  cases leaf1 with
  | none => simp [detect_prefetch_support, prefetch_detected]
  | some r1 => simp [detect_prefetch_support, prefetch_detected]

/-- C7 (code bug exhibited): the claim's rule "level 1 when only SSE4.2
together with prefetch support is detected" fails on the code, because the
successful extended-leaf query overwrites the shared `ecx`/`edx` register
variables before the SSE-family bit tests run.

On a CPU with architectural SSE4.2 (base-leaf `ecx` bit 20) and prefetch
(base-leaf `edx` bit 9), no AVX2, and a successful leaf-7 query returning
all-zero registers: the feature mask comes out 0 and the level is 0, where
the claim requires 1.  Conversely, with no architectural SSE4.2 but a
leaf-7 `ecx` whose (unrelated) bit 20 is set, the level comes out 1. -/
theorem claim_C7_clobbered_feature_detection :
    sse42_detected (some ⟨0, 0, 1 <<< 20, 1 <<< 9⟩) ∧
    prefetch_detected (some ⟨0, 0, 1 <<< 20, 1 <<< 9⟩) ∧
    ¬ avx2_detected (some ⟨0, 0, 1 <<< 20, 1 <<< 9⟩) (some ⟨0, 0, 0, 0⟩) ∧
    detect_cpu_features (some ⟨0, 0, 1 <<< 20, 1 <<< 9⟩) (some ⟨0, 0, 0, 0⟩) = 0 ∧
    is_pipeline_opt_supported (some ⟨0, 0, 1 <<< 20, 1 <<< 9⟩) (some ⟨0, 0, 0, 0⟩) = 0 ∧
    ¬ sse42_detected (some ⟨0, 0, 0, 1 <<< 9⟩) ∧
    is_pipeline_opt_supported (some ⟨0, 0, 0, 1 <<< 9⟩) (some ⟨0, 0, 1 <<< 20, 0⟩) = 1 := by
  refine ⟨⟨⟨0, 0, 1 <<< 20, 1 <<< 9⟩, rfl, by decide⟩,
    ⟨⟨0, 0, 1 <<< 20, 1 <<< 9⟩, rfl, by decide⟩, ?_, by decide, by decide, ?_, by decide⟩
  · rintro ⟨-, r7, hr7, hbit⟩
    obtain rfl := (Option.some.inj hr7).symm
    exact hbit (by decide)
  · rintro ⟨r1, hr1, hbit⟩
    obtain rfl := (Option.some.inj hr1).symm
    exact hbit (by decide)

/-- C8: when the CPUID base query is unavailable, detection degrades
silently — the feature set is empty (0), the derived optimization level is
0 and the cache-line size query returns the default 64; the default 64 is
also returned when the byte-shift-encoded field of a successful query is
zero.  All detector functions are total: no error outcome exists. -/
theorem claim_C8_detection_degradation :
    (∀ leaf7 : Option CpuidRegs, detect_cpu_features none leaf7 = 0) ∧
    (∀ leaf7 : Option CpuidRegs, is_pipeline_opt_supported none leaf7 = 0) ∧
    detect_prefetch_support none = false ∧
    get_cache_line_size none = 64 ∧
    (∀ r : CpuidRegs, (r.ebx >>> 8) &&& 0xff = 0 → get_cache_line_size (some r) = 64) := by
  refine ⟨fun leaf7 => rfl, fun leaf7 => ?_, rfl, rfl, fun r h => ?_⟩
  · unfold is_pipeline_opt_supported detect_cpu_features detect_prefetch_support
    simp
  · simp [get_cache_line_size, h]

/-- C8 witness: concrete instances of the degradation guarantees. -/
theorem claim_C8_witness :
    is_pipeline_opt_supported none (some ⟨0, 0, 0, 0⟩) = 0 ∧
      get_cache_line_size (some ⟨1, 0, 2, 3⟩) = 64 :=
  ⟨claim_C8_detection_degradation.2.1 (some ⟨0, 0, 0, 0⟩),
    claim_C8_detection_degradation.2.2.2.2 ⟨1, 0, 2, 3⟩ (by decide)⟩

/-- C10: `check_memory_usage` (via `mem_probe`) returns 1 iff the threshold
is strictly positive and the measured current memory strictly exceeds it;
a zero threshold disables alerting; the returned flag always agrees with the
`threshold_exceeded` field of the result it fills; and the return value is
always 0 or 1. -/
theorem claim_C10_memory_probe :
    ∀ (name_present : Bool) (threshold : Nat) (result_present : Bool)
      (mem_usage mem_available now peak0 : Nat),
      ((check_memory_usage name_present threshold result_present
          mem_usage mem_available now peak0).1 = 1 ↔
        (0 < threshold ∧ threshold < mem_usage)) ∧
      (threshold = 0 →
        (check_memory_usage name_present threshold result_present
          mem_usage mem_available now peak0).1 = 0) ∧
      (∀ r : MemoryProbeResult,
        (check_memory_usage name_present threshold result_present
            mem_usage mem_available now peak0).2.1 = some r →
          (r.threshold_exceeded = 1 ↔
            (check_memory_usage name_present threshold result_present
              mem_usage mem_available now peak0).1 = 1)) ∧
      ((check_memory_usage name_present threshold result_present
          mem_usage mem_available now peak0).1 = 0 ∨
       (check_memory_usage name_present threshold result_present
          mem_usage mem_available now peak0).1 = 1) := by
  intro name_present threshold result_present mem_usage mem_available now peak0
  have hspec : check_memory_usage name_present threshold result_present
      mem_usage mem_available now peak0 =
    (if threshold > 0 ∧ mem_usage > threshold then 1 else 0,
     if result_present then
       some { current_memory := mem_usage
              peak_memory := if result_present then max peak0 mem_usage else peak0
              available_memory := mem_available
              timestamp := now
              threshold_exceeded := if threshold > 0 ∧ mem_usage > threshold then 1 else 0
              error_code := 0 }
     else none,
     if result_present then max peak0 mem_usage else peak0) := rfl
  rw [hspec]
  by_cases hc : threshold > 0 ∧ mem_usage > threshold
  · refine ⟨?_, ?_, ?_, ?_⟩
    · rw [if_pos hc]
      exact ⟨fun _ => ⟨hc.1, hc.2⟩, fun _ => rfl⟩
    · intro h0
      exact absurd hc.1 (by omega)
    · intro r hr
      cases result_present with
      | false => exact absurd hr (by simp)
      | true =>
        simp [hc] at hr
        subst hr
        simp [hc]
    · rw [if_pos hc]
      exact Or.inr rfl
  · refine ⟨?_, ?_, ?_, ?_⟩
    · rw [if_neg hc]
      exact ⟨fun h01 => absurd h01 (by norm_num), fun hpos => absurd ⟨hpos.1, hpos.2⟩ hc⟩
    · intro _
      rw [if_neg hc]
    · intro r hr
      cases result_present with
      | false => exact absurd hr (by simp)
      | true =>
        simp [hc] at hr
        subst hr
        simp [hc]
    · rw [if_neg hc]
      exact Or.inl rfl

/-- C10 witness: concrete alert and agreement instances. -/
theorem claim_C10_witness :
    (check_memory_usage true 10 true 20 100 5 0).1 = 1 ∧
      (check_memory_usage true 0 true 20 100 5 0).1 = 0 :=
  ⟨(claim_C10_memory_probe true 10 true 20 100 5 0).1.2 (by decide),
    (claim_C10_memory_probe true 0 true 20 100 5 0).2.1 rfl⟩

/-- C2 witness: tier/baseline agreement evaluated at concrete inputs. -/
theorem claim_C2_witness :
    matrix_mult_avx512 (fun _ => 2) (fun _ => 3) (fun _ => 0) 5 3 =
      matrix_mult_baseline (fun _ => 2) (fun _ => 3) (fun _ => 0) 5 3 ∧
    asm_vector_dot_avx2 (fun _ => 1) (fun _ => 1) 7 =
      asm_vector_dot_base (fun _ => 1) (fun _ => 1) 7 :=
  ⟨(claim_C2_tiers_refine_baseline.1 (fun _ => 2) (fun _ => 3) (fun _ => 0) 5 3 (by decide)).1,
    (claim_C2_tiers_refine_baseline.2.2.2.2.2.2.1 (fun _ => 1) (fun _ => 1) 7).1⟩

/-- C6 witness: the scalar-fallback configuration still writes the full
product into the 1×1 output. -/
theorem claim_C6_witness :
    dispatch_matrix_multiply ⟨false, false, false, false, false⟩
        (fun _ => 1) (fun _ => 1) (fun _ => 0) 1 1 1 none (0 * 1 + 0) =
      dotK (fun _ => 1) (fun _ => 1) 1 1 0 0 :=
  (claim_C6_dispatch.2 ⟨false, false, false, false, false⟩
    (fun _ => 1) (fun _ => 1) (fun _ => 0) 1 1 1).2 0 0 (by decide) (by decide)
